import Mathlib

/-!
Verification of the browser-based code-review workbench.

The development shallowly embeds the state-bearing parts of the
application: the per-file edit history (undo/redo stack of the code
editor component), the staged-fix / version-archive handlers of the
top-level application state, and the GitHub repository ingestion
pipeline.  JavaScript strings become `String`, `T | null | undefined`
becomes `Option T`, arrays become `List`, and the nondeterministic
inputs (random ids, timestamps, user confirmation, network responses,
completion order of concurrent fetches) become explicit parameters.
Numeric score fields of analysis results are modelled as `Int`; no
claim depends on their arithmetic.
-/

namespace CodeReview

/-! ## Edit history (code editor component)

State of the editor component: `editHistory`/`historyPtr` are the
undo/redo stack, `code` is the content currently displayed (the value
the component reports through `onChange`). -/

structure EditorState where
  editHistory : List String
  historyPtr : Nat
  code : String
deriving DecidableEq

/-- The reset effect run when the active file changes:
`setEditHistory([code]); setHistoryPtr(0)`. -/
def resetEditor (code : String) : EditorState :=
  { editHistory := [code], historyPtr := 0, code := code }

/-- `handleChange` (user typing): always `onChange(newCode)`; if the new
code differs from the snapshot at the pointer, truncate the stack after
the pointer (`slice(0, historyPtr + 1)`), push the new code and move the
pointer to the new tail. -/
def handleChange (s : EditorState) (newCode : String) : EditorState :=
  let s1 : EditorState := { s with code := newCode }
  if s1.editHistory.get? s1.historyPtr = some newCode then s1
  else
    let newHistory := s1.editHistory.take (s1.historyPtr + 1) ++ [newCode]
    { s1 with editHistory := newHistory, historyPtr := newHistory.length - 1 }

/-- `handleUndo`: if the pointer is positive, decrement it and display
the snapshot at the new pointer; otherwise do nothing. -/
def handleUndo (s : EditorState) : EditorState :=
  if 0 < s.historyPtr then
    let newPtr := s.historyPtr - 1
    { s with historyPtr := newPtr, code := s.editHistory.getD newPtr "" }
  else s

/-- `handleRedo`: if the pointer is below the last index, increment it
and display the snapshot at the new pointer; otherwise do nothing. -/
def handleRedo (s : EditorState) : EditorState :=
  if s.historyPtr < s.editHistory.length - 1 then
    let newPtr := s.historyPtr + 1
    { s with historyPtr := newPtr, code := s.editHistory.getD newPtr "" }
  else s

/-- Run a sequence of `handleChange` calls from the reset state. -/
def applyEdits (code : String) (edits : List String) : EditorState :=
  edits.foldl handleChange (resetEditor code)

/-- Invariant of the editor state: the pointer is a valid index and the
snapshot at the pointer is the displayed content. -/
def HistoryInv (s : EditorState) : Prop :=
  s.editHistory.get? s.historyPtr = some s.code

theorem historyInv_reset (c : String) : HistoryInv (resetEditor c) := rfl

theorem code_handleChange (s : EditorState) (x : String) :
    (handleChange s x).code = x := by
  unfold handleChange
  dsimp only
  split <;> rfl

theorem get?_handleChange_self (s : EditorState) (x : String) :
    (handleChange s x).editHistory.get? (handleChange s x).historyPtr = some x := by
  unfold handleChange
  dsimp only
  split
  · assumption
  · have hlen : 0 < (s.editHistory.take (s.historyPtr + 1)).length + 1 :=
      Nat.succ_pos _
    simp only [List.length_append, List.length_cons, List.length_nil]
    rw [Nat.add_sub_cancel]
    exact List.get?_concat_length _ _

theorem historyInv_handleChange (s : EditorState) (x : String) :
    HistoryInv (handleChange s x) := by
  unfold HistoryInv
  rw [get?_handleChange_self, code_handleChange]

theorem historyInv_foldl (edits : List String) (s : EditorState) (h : HistoryInv s) :
    HistoryInv (edits.foldl handleChange s) := by
  induction edits generalizing s with
  | nil => exact h
  | cons a l ih => exact ih _ (historyInv_handleChange s a)

theorem historyInv_applyEdits (c : String) (edits : List String) :
    HistoryInv (applyEdits c edits) :=
  historyInv_foldl edits _ (historyInv_reset c)

theorem lt_length_of_inv {s : EditorState} (h : HistoryInv s) :
    s.historyPtr < s.editHistory.length :=
  List.get?_eq_some.mp h |>.choose

theorem getD_eq_of_inv {s : EditorState} (h : HistoryInv s) :
    s.editHistory.getD s.historyPtr "" = s.code := by
  rw [List.getD_eq_get?, h]
  rfl

theorem undo_redo_of_inv (s : EditorState) (h : HistoryInv s)
    (hp : 0 < s.historyPtr) : handleRedo (handleUndo s) = s := by
  have hlt : s.historyPtr < s.editHistory.length := lt_length_of_inv h
  unfold handleUndo
  rw [if_pos hp]
  unfold handleRedo
  dsimp only
  have hcond : s.historyPtr - 1 < s.editHistory.length - 1 := by omega
  rw [if_pos hcond]
  have hptr : s.historyPtr - 1 + 1 = s.historyPtr := by omega
  rw [hptr, getD_eq_of_inv h]

theorem undo_noop_of_ptr_zero (s : EditorState) (h : s.historyPtr = 0) :
    handleUndo s = s := by
  unfold handleUndo
  rw [if_neg (by omega)]

theorem redo_noop_of_ptr_last (s : EditorState)
    (h : s.historyPtr = s.editHistory.length - 1) :
    handleRedo s = s := by
  unfold handleRedo
  rw [if_neg (by omega)]

theorem handleChange_eq_case (s : EditorState) (x : String)
    (h : s.editHistory.get? s.historyPtr = some x) :
    handleChange s x = { s with code := x } := by
  unfold handleChange
  dsimp only
  rw [if_pos h]

theorem handleChange_ne_case (s : EditorState) (x : String)
    (h : ¬ s.editHistory.get? s.historyPtr = some x) :
    handleChange s x =
      { editHistory := s.editHistory.take (s.historyPtr + 1) ++ [x],
        historyPtr := (s.editHistory.take (s.historyPtr + 1) ++ [x]).length - 1,
        code := x } := by
  unfold handleChange
  dsimp only
  rw [if_neg h]

theorem handleChange_second_noop (s : EditorState) (x : String) :
    handleChange (handleChange s x) x = handleChange s x := by
  have h1 := get?_handleChange_self s x
  have h2 := code_handleChange s x
  generalize hT : handleChange s x = t at h1 h2 ⊢
  rw [handleChange_eq_case t x h1, ← h2]

/-- Claim C2: for every edit-history state reachable by a sequence of
`handleChange` (recordEdit) calls, `handleUndo` followed immediately by
`handleRedo` restores the whole pre-undo state (in particular the
displayed content); at the boundaries (pointer `0` for undo, pointer at
the last index for redo) each operation returns the state unchanged. -/
theorem undo_redo_round_trip (c0 : String) (edits : List String) :
    (0 < (applyEdits c0 edits).historyPtr →
      handleRedo (handleUndo (applyEdits c0 edits)) = applyEdits c0 edits) ∧
    ((applyEdits c0 edits).historyPtr = 0 →
      handleUndo (applyEdits c0 edits) = applyEdits c0 edits) ∧
    ((applyEdits c0 edits).historyPtr =
        (applyEdits c0 edits).editHistory.length - 1 →
      handleRedo (applyEdits c0 edits) = applyEdits c0 edits) :=
  ⟨fun hp => undo_redo_of_inv _ (historyInv_applyEdits c0 edits) hp,
   fun h0 => undo_noop_of_ptr_zero _ h0,
   fun hl => redo_noop_of_ptr_last _ hl⟩

/-- Witness for `undo_redo_round_trip` at concrete edit sequences. -/
theorem undo_redo_round_trip_witness :
    (0 < (applyEdits "a" ["b"]).historyPtr ∧
      handleRedo (handleUndo (applyEdits "a" ["b"])) = applyEdits "a" ["b"]) ∧
    ((applyEdits "a" ["b"]).historyPtr =
        (applyEdits "a" ["b"]).editHistory.length - 1 ∧
      handleRedo (applyEdits "a" ["b"]) = applyEdits "a" ["b"]) ∧
    ((applyEdits "a" []).historyPtr = 0 ∧
      handleUndo (applyEdits "a" []) = applyEdits "a" []) :=
  ⟨⟨by decide, (undo_redo_round_trip "a" ["b"]).1 (by decide)⟩,
   ⟨by decide, (undo_redo_round_trip "a" ["b"]).2.2 (by decide)⟩,
   ⟨by decide, (undo_redo_round_trip "a" []).2.1 (by decide)⟩⟩

/-- The state reached from content `"a"` by recording `"b"`, `"c"` and
undoing twice: history `["a", "b", "c"]`, pointer `0`, displayed `"a"`. -/
def editorMidState : EditorState :=
  handleUndo (handleUndo (applyEdits "a" ["b", "c"]))

/-- Claim C8 counterexample: from the reachable state with history
`["a", "b", "c"]` and pointer `0`, recording `"d"` twice (a content that
differs from the snapshot at the pointer) leaves a history of length
`2`, not length `3 + 1`: the double call does not grow the sequence by
exactly one entry. -/
theorem recordEdit_growth_counterexample :
    editorMidState.editHistory.length = 3 ∧
    editorMidState.editHistory.get? editorMidState.historyPtr ≠ some "d" ∧
    (handleChange (handleChange editorMidState "d") "d").editHistory.length = 2 ∧
    (handleChange (handleChange editorMidState "d") "d").editHistory.length ≠
      editorMidState.editHistory.length + 1 := by
  decide

/-- Claim C8 (amended): on any state satisfying the editor invariant,
the second of two consecutive `handleChange` calls with the same content
is a no-op; a call whose content differs from the snapshot at the
pointer replaces the sequence by its first `pointer + 1` entries
followed by the new content and leaves the pointer at the new tail (so
the sequence grows by exactly one entry exactly when the pointer was at
the last index); a call whose content equals the snapshot at the pointer
leaves the state unchanged. -/
theorem recordEdit_growth (s : EditorState) (x : String)
    (hinv : HistoryInv s) :
    (handleChange (handleChange s x) x = handleChange s x) ∧
    (s.editHistory.get? s.historyPtr ≠ some x →
      (handleChange s x).editHistory =
        s.editHistory.take (s.historyPtr + 1) ++ [x] ∧
      (handleChange s x).historyPtr = s.historyPtr + 1 ∧
      (handleChange s x).historyPtr = (handleChange s x).editHistory.length - 1 ∧
      (s.historyPtr = s.editHistory.length - 1 →
        (handleChange s x).editHistory.length = s.editHistory.length + 1)) ∧
    (s.editHistory.get? s.historyPtr = some x → handleChange s x = s) := by
  have hlt : s.historyPtr < s.editHistory.length := lt_length_of_inv hinv
  refine ⟨handleChange_second_noop s x, fun hne => ?_, fun heq => ?_⟩
  · rw [handleChange_ne_case s x hne]
    refine ⟨rfl, ?_, rfl, ?_⟩
    · simp only [List.length_append, List.length_take, List.length_cons,
        List.length_nil]
      omega
    · intro hlast
      simp only [List.length_append, List.length_take, List.length_cons,
        List.length_nil]
      omega
  · have hc : s.code = x := Option.some.inj (hinv.symm.trans heq)
    rw [handleChange_eq_case s x heq, ← hc]

/-- Witness for `recordEdit_growth` at the reset state. -/
theorem recordEdit_growth_witness :
    HistoryInv (resetEditor "a") ∧
    handleChange (handleChange (resetEditor "a") "b") "b" =
      handleChange (resetEditor "a") "b" :=
  ⟨historyInv_reset "a",
   (recordEdit_growth (resetEditor "a") "b" (historyInv_reset "a")).1⟩

/-! ## Application data model

The record types of the application state.  TypeScript string-literal
unions (`securityPosture`, tech-stack `health`, file-insight `status`)
are modelled as strings; optional fields become `Option` (or `Bool` /
`List` where every use supplies the JavaScript default for a missing
value, as the handlers do with `f.history || []`). -/

inductive Severity
  | INFO
  | LOW
  | MEDIUM
  | HIGH
  | CRITICAL
deriving DecidableEq

structure CodeIssue where
  severity : Severity
  line : Option Int
  title : String
  description : String
  suggestion : String
deriving DecidableEq

structure AnalysisResult where
  overallScore : Int
  summary : String
  issues : List CodeIssue
  securityScore : Int
  maintainabilityScore : Int
  timestamp : Option Nat
deriving DecidableEq

structure TechStackItem where
  name : String
  version : Option String
  health : String
deriving DecidableEq

structure FileInsight where
  path : String
  status : String
  comment : String
deriving DecidableEq

structure ProductionReadiness where
  score : Int
  scalabilityIssues : List String
  hardcodedSecrets : List String
  missingLogging : List String
  errorHandlingGaps : List String
deriving DecidableEq

structure PerformanceAudit where
  score : Int
  bottlenecks : List String
  optimizationSuggestions : List String
  resourceIntensiveFiles : List String
deriving DecidableEq

structure ProjectAnalysis where
  architectureScore : Int
  securityScore : Int
  qualityScore : Int
  securityPosture : String
  techStack : List TechStackItem
  summary : String
  majorVulnerabilities : List String
  recommendations : List String
  fileInsights : List FileInsight
  productionReadiness : ProductionReadiness
  performanceAudit : PerformanceAudit
  timestamp : Nat
deriving DecidableEq

structure FileVersion where
  id : String
  timestamp : Nat
  content : String
  description : String
deriving DecidableEq

structure CursorPosition where
  line : Nat
  column : Nat
deriving DecidableEq

structure FileData where
  id : String
  name : String
  path : String
  content : String
  language : String
  analysis : Option AnalysisResult := none
  isAnalyzing : Bool := false
  stagingContent : Option String := none
  isFixing : Bool := false
  history : List FileVersion := []
  cursor : Option CursorPosition := none
deriving DecidableEq

structure Project where
  id : String
  name : String
  createdAt : Nat
  files : List FileData
  projectAnalysis : Option ProjectAnalysis := none
  isAnalyzing : Bool := false
  githubUrl : Option String := none
deriving DecidableEq

/-- The coordinator state relevant to the staged-fix / version-archive
handlers: the project list and the two selection ids. -/
structure AppState where
  projects : List Project
  currentProjectId : Option String
  activeFileId : Option String
deriving DecidableEq

/-- JavaScript truthiness of a `string | null | undefined` value:
falsy exactly when absent or the empty string. -/
def strTruthy : Option String → Bool
  | some s => s != ""
  | none => false

/-- `projects.find(p => p.id === currentProjectId)`. -/
def currentProject (s : AppState) : Option Project :=
  s.projects.find? (fun p => s.currentProjectId == some p.id)

/-- `currentProject?.files.find(f => f.id === activeFileId)`. -/
def activeFile (s : AppState) : Option FileData :=
  (currentProject s).bind
    (fun p => p.files.find? (fun f => s.activeFileId == some f.id))

/-- `f.id === activeFileId ? g(f) : f` — the per-file branch of the
update every handler performs. -/
def fileIfActive (s : AppState) (g : FileData → FileData)
    (f : FileData) : FileData :=
  if s.activeFileId == some f.id then g f else f

/-- `p.id === currentProjectId ? { ...p, files: p.files.map(...) } : p` —
the per-project branch of the update every handler performs. -/
def projIfCurrent (s : AppState) (g : FileData → FileData)
    (p : Project) : Project :=
  if s.currentProjectId == some p.id then
    { p with files := p.files.map (fileIfActive s g) }
  else p

/-- The whole-value state update every handler performs:
`projects.map(p => p.id === currentProjectId ? { ...p, files:
p.files.map(f => f.id === activeFileId ? g(f) : f) } : p)`. -/
def mapActiveFile (s : AppState) (g : FileData → FileData) : AppState :=
  { s with projects := s.projects.map (projIfCurrent s g) }

/-- `handleAcceptFix`: guarded by `!activeFile || !activeFile.stagingContent`
(JavaScript truthiness, so an empty-string staged content is also a
no-op); otherwise archive the previous content with a timestamped
"Before Fix" description, promote the staged content and clear the
cached analysis.  `newId`, `now` and `timeStr` stand for
`Math.random().toString(36).substr(2, 9)`, `Date.now()` and
`new Date().toLocaleTimeString()`. -/
def handleAcceptFix (s : AppState) (newId : String) (now : Nat)
    (timeStr : String) : AppState :=
  match activeFile s with
  | none => s
  | some af =>
    if strTruthy af.stagingContent then
      let newContent := af.stagingContent.getD ""
      let previousContent := af.content
      mapActiveFile s (fun f =>
        { f with
          content := newContent
          stagingContent := none
          analysis := none
          history := f.history ++
            [{ id := newId, timestamp := now, content := previousContent,
               description := "Before Fix " ++ timeStr }] })
    else s

/-- `handleRejectFix`: unconditionally clear the staged content of the
active file; nothing else is touched. -/
def handleRejectFix (s : AppState) : AppState :=
  mapActiveFile s (fun f => { f with stagingContent := none })

/-- `handleRevertVersion`: guarded by `!activeFile || !currentProjectId`;
look the snapshot up by id in the active file's archive; if absent, or
the user cancels the confirmation dialog, do nothing; otherwise archive
the current content as a "Before Revert" snapshot, restore the target
snapshot's content and clear the cached analysis. -/
def handleRevertVersion (s : AppState) (versionId : String)
    (confirmRevert : Bool) (newId : String) (now : Nat) : AppState :=
  match activeFile s with
  | none => s
  | some af =>
    if strTruthy s.currentProjectId then
      match af.history.find? (fun v => v.id == versionId) with
      | none => s
      | some versionToRestore =>
        if confirmRevert then
          let currentAsHistory : FileVersion :=
            { id := newId, timestamp := now, content := af.content,
              description := "Before Revert" }
          mapActiveFile s (fun f =>
            { f with
              content := versionToRestore.content
              analysis := none
              history := f.history ++ [currentAsHistory] })
        else s
    else s


theorem find?_map_eq {α : Type} (l : List α) (u : α → α) (q : α → Bool)
    (h : ∀ a, q (u a) = q a) :
    (l.map u).find? q = (l.find? q).map u := by
  rw [List.find?_map]
  have hqu : q ∘ u = q := funext h
  rw [hqu]

theorem fileIfActive_id (s : AppState) (g : FileData → FileData)
    (hgid : ∀ f, (g f).id = f.id) (f : FileData) :
    (fileIfActive s g f).id = f.id := by
  unfold fileIfActive
  split
  · exact hgid f
  · rfl

theorem projIfCurrent_id (s : AppState) (g : FileData → FileData)
    (p : Project) : (projIfCurrent s g p).id = p.id := by
  unfold projIfCurrent
  split <;> rfl

theorem fileIfActive_eq_self {s : AppState} {g : FileData → FileData}
    {f : FileData} (h : (s.activeFileId == some f.id) = false) :
    fileIfActive s g f = f := by
  simp [fileIfActive, h]

theorem fileIfActive_eq_g {s : AppState} {g : FileData → FileData}
    {f : FileData} (h : (s.activeFileId == some f.id) = true) :
    fileIfActive s g f = g f := by
  simp [fileIfActive, h]

theorem projIfCurrent_eq_self {s : AppState} {g : FileData → FileData}
    {p : Project} (h : (s.currentProjectId == some p.id) = false) :
    projIfCurrent s g p = p := by
  simp [projIfCurrent, h]

theorem projIfCurrent_eq_update {s : AppState} {g : FileData → FileData}
    {p : Project} (h : (s.currentProjectId == some p.id) = true) :
    projIfCurrent s g p = { p with files := p.files.map (fileIfActive s g) } := by
  simp [projIfCurrent, h]

theorem currentProjectId_eq {s : AppState} {p : Project}
    (hp : currentProject s = some p) : s.currentProjectId = some p.id := by
  unfold currentProject at hp
  have hbeq := List.find?_some hp
  exact eq_of_beq hbeq

theorem activeFile_find {s : AppState} {p : Project} {af : FileData}
    (hp : currentProject s = some p) (haf : activeFile s = some af) :
    p.files.find? (fun f => s.activeFileId == some f.id) = some af := by
  unfold activeFile at haf
  rw [hp] at haf
  exact haf

theorem activeFileId_eq {s : AppState} {p : Project} {af : FileData}
    (hp : currentProject s = some p) (haf : activeFile s = some af) :
    s.activeFileId = some af.id := by
  have hbeq := List.find?_some (activeFile_find hp haf)
  exact eq_of_beq hbeq

theorem currentProject_mapActiveFile (s : AppState) (g : FileData → FileData)
    (p : Project) (hp : currentProject s = some p) :
    currentProject (mapActiveFile s g) =
      some { p with files := p.files.map (fileIfActive s g) } := by
  have hp2 := hp
  unfold currentProject at hp2
  have hbeq := List.find?_some hp2
  unfold currentProject mapActiveFile
  dsimp only
  rw [find?_map_eq s.projects (projIfCurrent s g) _
    (fun a => by rw [projIfCurrent_id])]
  rw [hp2]
  dsimp only [Option.map]
  rw [projIfCurrent_eq_update hbeq]

theorem activeFile_mapActiveFile (s : AppState) (g : FileData → FileData)
    (p : Project) (af : FileData) (hgid : ∀ f, (g f).id = f.id)
    (hp : currentProject s = some p) (haf : activeFile s = some af) :
    activeFile (mapActiveFile s g) = some (g af) := by
  have hfind := activeFile_find hp haf
  have hbeq := List.find?_some hfind
  unfold activeFile
  rw [currentProject_mapActiveFile s g p hp]
  show (p.files.map (fileIfActive s g)).find?
    (fun f => s.activeFileId == some f.id) = some (g af)
  rw [find?_map_eq p.files (fileIfActive s g) _
    (fun f => by rw [fileIfActive_id s g hgid])]
  rw [hfind]
  dsimp only [Option.map]
  rw [fileIfActive_eq_g hbeq]

theorem mapActiveFile_frame (s : AppState) (g : FileData → FileData)
    (p : Project) (af : FileData) (hgid : ∀ f, (g f).id = f.id)
    (hp : currentProject s = some p) (haf : activeFile s = some af) :
    activeFile (mapActiveFile s g) = some (g af) ∧
    (∃ p', currentProject (mapActiveFile s g) = some p' ∧ p'.id = p.id ∧
      p'.files.length = p.files.length ∧
      ∀ f ∈ p.files, f.id ≠ af.id → f ∈ p'.files) ∧
    (∀ q ∈ s.projects, q.id ≠ p.id → q ∈ (mapActiveFile s g).projects) ∧
    (mapActiveFile s g).currentProjectId = s.currentProjectId ∧
    (mapActiveFile s g).activeFileId = s.activeFileId ∧
    (mapActiveFile s g).projects.length = s.projects.length := by
  have hafid := activeFileId_eq hp haf
  have hpid := currentProjectId_eq hp
  refine ⟨activeFile_mapActiveFile s g p af hgid hp haf,
    ⟨_, currentProject_mapActiveFile s g p hp, rfl, List.length_map _ _,
      fun f hf hne => ?_⟩, fun q hq hne => ?_, rfl, rfl, List.length_map _ _⟩
  · have hcond : (s.activeFileId == some f.id) = false := by
      rw [hafid, beq_eq_false_iff_ne]
      intro hcontra
      exact hne (Option.some.inj hcontra).symm
    have hfix : fileIfActive s g f = f := fileIfActive_eq_self hcond
    exact hfix ▸ List.mem_map_of_mem (fileIfActive s g) hf
  · have hcond : (s.currentProjectId == some q.id) = false := by
      rw [hpid, beq_eq_false_iff_ne]
      intro hcontra
      exact hne (Option.some.inj hcontra).symm
    have hfix : projIfCurrent s g q = q := projIfCurrent_eq_self hcond
    show q ∈ s.projects.map (projIfCurrent s g)
    exact hfix ▸ List.mem_map_of_mem (projIfCurrent s g) hq

theorem handleAcceptFix_eq_map (s : AppState) (af : FileData)
    (c newId timeStr : String) (now : Nat)
    (haf : activeFile s = some af) (hstg : af.stagingContent = some c)
    (hc : c ≠ "") :
    handleAcceptFix s newId now timeStr =
      mapActiveFile s (fun f =>
        { f with
          content := c
          stagingContent := none
          analysis := none
          history := f.history ++
            [{ id := newId, timestamp := now, content := af.content,
               description := "Before Fix " ++ timeStr }] }) := by
  have htr : strTruthy af.stagingContent = true := by
    rw [hstg]
    show (c != "") = true
    exact bne_iff_ne.mpr hc
  unfold handleAcceptFix
  simp only [haf]
  rw [if_pos htr, hstg]
  rfl

theorem handleRevertVersion_eq_map (s : AppState) (p : Project)
    (af : FileData) (vtr : FileVersion) (versionId newId : String) (now : Nat)
    (hp : currentProject s = some p) (haf : activeFile s = some af)
    (hpid : p.id ≠ "")
    (hv : af.history.find? (fun v => v.id == versionId) = some vtr) :
    handleRevertVersion s versionId true newId now =
      mapActiveFile s (fun f =>
        { f with
          content := vtr.content
          analysis := none
          history := f.history ++
            [{ id := newId, timestamp := now, content := af.content,
               description := "Before Revert" }] }) := by
  have htr : strTruthy s.currentProjectId = true := by
    rw [currentProjectId_eq hp]
    show (p.id != "") = true
    exact bne_iff_ne.mpr hpid
  unfold handleRevertVersion
  simp only [haf]
  rw [if_pos htr]
  simp only [hv]
  rw [if_pos trivial]

theorem handleRevertVersion_noop (s : AppState) (vid nid : String)
    (conf : Bool) (ts : Nat)
    (h : ∀ af, activeFile s = some af →
      af.history.find? (fun v => v.id == vid) = none) :
    handleRevertVersion s vid conf nid ts = s := by
  unfold handleRevertVersion
  cases heq : activeFile s with
  | none => rfl
  | some af =>
    have hfind := h af heq
    simp only [hfind]
    exact ite_self s

/-- A file whose staged content is present and non-empty. -/
def stagedFile : FileData :=
  { id := "f1", name := "a.js", path := "a.js", content := "old",
    language := "js", stagingContent := some "new" }

def stagedProject : Project :=
  { id := "p1", name := "demo", createdAt := 0, files := [stagedFile] }

def stagedState : AppState :=
  { projects := [stagedProject], currentProjectId := some "p1",
    activeFileId := some "f1" }

/-- A file whose staged content is present but is the empty string. -/
def emptyStagedFile : FileData :=
  { id := "f1", name := "a.js", path := "a.js", content := "old",
    language := "js", stagingContent := some "" }

def emptyStagedProject : Project :=
  { id := "p1", name := "demo", createdAt := 0, files := [emptyStagedFile] }

def emptyStagedState : AppState :=
  { projects := [emptyStagedProject], currentProjectId := some "p1",
    activeFileId := some "f1" }

/-- Claim C1 counterexample: the active file has a staged content value
(`some ""`), yet `handleAcceptFix` leaves the whole state unchanged —
the `!activeFile.stagingContent` guard treats the empty string as
falsy, so no `VersionSnapshot` is appended, the staged content is not
promoted and not cleared. -/
theorem acceptFix_counterexample :
    activeFile emptyStagedState = some emptyStagedFile ∧
    emptyStagedFile.stagingContent = some "" ∧
    emptyStagedFile.stagingContent ≠ none ∧
    handleAcceptFix emptyStagedState "id9" 5 "10:00" = emptyStagedState := by
  decide

/-- Claim C1 (amended): for the active file with a *non-empty* staged
content `c`, accepting the staged fix appends exactly one new snapshot
whose content equals the pre-accept current content (with a timestamped
"Before Fix" description), makes `c` the new current content, clears
the staged content and the cached analysis; every other file of the
current project and every other project is unchanged, as are the
selection ids.  (For an empty-string staged content the handler is a
no-op; see the counterexample.) -/
theorem acceptFix_spec (s : AppState) (p : Project) (af : FileData)
    (c newId timeStr : String) (now : Nat)
    (hp : currentProject s = some p) (haf : activeFile s = some af)
    (hstg : af.stagingContent = some c) (hc : c ≠ "") :
    activeFile (handleAcceptFix s newId now timeStr) =
      some { af with
             content := c
             stagingContent := none
             analysis := none
             history := af.history ++
               [{ id := newId, timestamp := now, content := af.content,
                  description := "Before Fix " ++ timeStr }] } ∧
    (∃ p', currentProject (handleAcceptFix s newId now timeStr) = some p' ∧
      p'.id = p.id ∧ p'.files.length = p.files.length ∧
      ∀ f ∈ p.files, f.id ≠ af.id → f ∈ p'.files) ∧
    (∀ q ∈ s.projects, q.id ≠ p.id →
      q ∈ (handleAcceptFix s newId now timeStr).projects) ∧
    (handleAcceptFix s newId now timeStr).currentProjectId =
      s.currentProjectId ∧
    (handleAcceptFix s newId now timeStr).activeFileId = s.activeFileId ∧
    (handleAcceptFix s newId now timeStr).projects.length =
      s.projects.length := by
  rw [handleAcceptFix_eq_map s af c newId timeStr now haf hstg hc]
  exact mapActiveFile_frame s _ p af (fun f => rfl) hp haf

/-- Witness for `acceptFix_spec` on a one-file project. -/
theorem acceptFix_spec_witness :
    currentProject stagedState = some stagedProject ∧
    activeFile stagedState = some stagedFile ∧
    stagedFile.stagingContent = some "new" ∧
    ("new" : String) ≠ "" ∧
    activeFile (handleAcceptFix stagedState "id9" 7 "10:00") =
      some { stagedFile with
             content := "new"
             stagingContent := none
             analysis := none
             history := stagedFile.history ++
               [{ id := "id9", timestamp := 7, content := stagedFile.content,
                  description := "Before Fix " ++ "10:00" }] } :=
  ⟨by decide, by decide, by decide, by decide,
   (acceptFix_spec stagedState stagedProject stagedFile "new" "id9" "10:00" 7
     (by decide) (by decide) (by decide) (by decide)).1⟩

/-- Claim C7: rejecting the staged fix clears the staged content of the
active file and changes nothing else — same current content, same
version archive, every other field and every other file and project
exactly as before, and no snapshot is created. -/
theorem rejectFix_frame (s : AppState) (p : Project) (af : FileData)
    (c : String) (hp : currentProject s = some p)
    (haf : activeFile s = some af) (_hstg : af.stagingContent = some c) :
    activeFile (handleRejectFix s) = some { af with stagingContent := none } ∧
    (FileData.content { af with stagingContent := none } = af.content ∧
     FileData.history { af with stagingContent := none } = af.history ∧
     FileData.analysis { af with stagingContent := none } = af.analysis) ∧
    (∃ p', currentProject (handleRejectFix s) = some p' ∧
      p'.id = p.id ∧ p'.files.length = p.files.length ∧
      ∀ f ∈ p.files, f.id ≠ af.id → f ∈ p'.files) ∧
    (∀ q ∈ s.projects, q.id ≠ p.id → q ∈ (handleRejectFix s).projects) ∧
    (handleRejectFix s).currentProjectId = s.currentProjectId ∧
    (handleRejectFix s).activeFileId = s.activeFileId ∧
    (handleRejectFix s).projects.length = s.projects.length := by
  have hframe := mapActiveFile_frame s
    (fun f => { f with stagingContent := none }) p af (fun f => rfl) hp haf
  exact ⟨hframe.1, ⟨rfl, rfl, rfl⟩, hframe.2.1, hframe.2.2.1,
    hframe.2.2.2.1, hframe.2.2.2.2.1, hframe.2.2.2.2.2⟩

/-- Witness for `rejectFix_frame` on a one-file project. -/
theorem rejectFix_frame_witness :
    currentProject stagedState = some stagedProject ∧
    activeFile stagedState = some stagedFile ∧
    stagedFile.stagingContent = some "new" ∧
    activeFile (handleRejectFix stagedState) =
      some { stagedFile with stagingContent := none } :=
  ⟨by decide, by decide, by decide,
   (rejectFix_frame stagedState stagedProject stagedFile "new"
     (by decide) (by decide) (by decide)).1⟩

/-- A file with one archived snapshot, for the revert witness. -/
def archivedVersion : FileVersion :=
  { id := "v1", timestamp := 1, content := "older",
    description := "Before Fix 09:00" }

def versionedFile : FileData :=
  { id := "f1", name := "a.js", path := "a.js", content := "current",
    language := "js", history := [archivedVersion] }

def versionedProject : Project :=
  { id := "p1", name := "demo", createdAt := 0, files := [versionedFile] }

def versionedState : AppState :=
  { projects := [versionedProject], currentProjectId := some "p1",
    activeFileId := some "f1" }

/-- Claim C3: if a snapshot with the requested id is found in the active
file's archive (and the user confirms), revert appends one "Before
Revert" snapshot holding the current content, replaces the current
content with the target snapshot's content, clears the cached analysis,
removes nothing from the archive (the old archive is a prefix of the
new one) and leaves everything else — staged content, other files,
other projects, the selection ids — unchanged; if no snapshot with the
requested id exists, `handleRevertVersion` is a no-op on the whole
state. -/
theorem revertVersion_spec (s : AppState) (p : Project) (af : FileData)
    (vtr : FileVersion) (versionId newId : String) (now : Nat)
    (hp : currentProject s = some p) (haf : activeFile s = some af)
    (hpid : p.id ≠ "")
    (hv : af.history.find? (fun v => v.id == versionId) = some vtr) :
    (∃ af', activeFile (handleRevertVersion s versionId true newId now) =
        some af' ∧
      af'.content = vtr.content ∧
      af'.analysis = none ∧
      af'.history = af.history ++
        [{ id := newId, timestamp := now, content := af.content,
           description := "Before Revert" }] ∧
      af.history <+: af'.history ∧
      af'.stagingContent = af.stagingContent ∧
      af'.id = af.id) ∧
    (∃ p', currentProject (handleRevertVersion s versionId true newId now) =
        some p' ∧
      p'.id = p.id ∧ p'.files.length = p.files.length ∧
      ∀ f ∈ p.files, f.id ≠ af.id → f ∈ p'.files) ∧
    (∀ q ∈ s.projects, q.id ≠ p.id →
      q ∈ (handleRevertVersion s versionId true newId now).projects) ∧
    (handleRevertVersion s versionId true newId now).currentProjectId =
      s.currentProjectId ∧
    (handleRevertVersion s versionId true newId now).activeFileId =
      s.activeFileId ∧
    (handleRevertVersion s versionId true newId now).projects.length =
      s.projects.length ∧
    (∀ (s₂ : AppState) (vid nid : String) (conf : Bool) (ts : Nat),
      (∀ af₂, activeFile s₂ = some af₂ →
        af₂.history.find? (fun v => v.id == vid) = none) →
      handleRevertVersion s₂ vid conf nid ts = s₂) := by
  rw [handleRevertVersion_eq_map s p af vtr versionId newId now hp haf hpid hv]
  have hframe := mapActiveFile_frame s
    (fun f =>
      { f with
        content := vtr.content
        analysis := none
        history := f.history ++
          [{ id := newId, timestamp := now, content := af.content,
             description := "Before Revert" }] })
    p af (fun f => rfl) hp haf
  exact ⟨⟨_, hframe.1, rfl, rfl, rfl, ⟨_, rfl⟩, rfl, rfl⟩, hframe.2.1,
    hframe.2.2.1, hframe.2.2.2.1, hframe.2.2.2.2.1, hframe.2.2.2.2.2,
    fun s₂ vid nid conf ts h => handleRevertVersion_noop s₂ vid nid conf ts h⟩

/-- Witness for `revertVersion_spec` on a one-file project. -/
theorem revertVersion_spec_witness :
    currentProject versionedState = some versionedProject ∧
    activeFile versionedState = some versionedFile ∧
    versionedProject.id ≠ "" ∧
    versionedFile.history.find? (fun v => v.id == "v1") =
      some archivedVersion ∧
    (∃ af', activeFile (handleRevertVersion versionedState "v1" true "id9" 9) =
        some af' ∧
      af'.content = archivedVersion.content ∧
      af'.analysis = none ∧
      af'.history = versionedFile.history ++
        [{ id := "id9", timestamp := 9, content := versionedFile.content,
           description := "Before Revert" }] ∧
      versionedFile.history <+: af'.history ∧
      af'.stagingContent = versionedFile.stagingContent ∧
      af'.id = versionedFile.id) :=
  ⟨by decide, by decide, by decide, by decide,
   (revertVersion_spec versionedState versionedProject versionedFile
     archivedVersion "v1" "id9" 9 (by decide) (by decide) (by decide)
     (by decide)).1⟩

/-! ## Repository ingestion pipeline (githubService)

Network effects are abstracted: HTTP success flags and response bodies
become fields of a `GithubEnv`, and the completion order of the
concurrent per-file fetches becomes an explicit list parameter. -/

/-- Does the second character list occur at the start of the first? -/
def listStartsWith : List Char → List Char → Bool
  | _, [] => true
  | [], _ :: _ => false
  | a :: as, b :: bs => a == b && listStartsWith as bs

/-- Does the second character list occur anywhere inside the first? -/
def listContainsSub : List Char → List Char → Bool
  | [], sub => listStartsWith [] sub
  | a :: as, sub => listStartsWith (a :: as) sub || listContainsSub as sub

/-- JavaScript `s.includes(sub)`: substring containment. -/
def strIncludes (s sub : String) : Bool :=
  listContainsSub s.toList sub.toList

/-- The fixed denylist of path substrings. -/
def IGNORED_PATHS : List String :=
  ["node_modules", ".git", "dist", "build", "package-lock.json",
   "yarn.lock", ".DS_Store", "coverage", ".next", ".vscode",
   "__pycache__", ".idea"]

inductive GithubItemType
  | blob
  | tree
deriving DecidableEq

structure GithubTreeItem where
  path : String
  mode : String
  type : GithubItemType
  sha : String
  size : Option Nat
  url : String
deriving DecidableEq

/-- Step 3 of `fetchGithubRepo`:
`tree.filter(item => item.type === 'blob')
     .filter(item => !IGNORED_PATHS.some(ig => item.path.includes(ig)))
     .slice(0, 30)`. -/
def selectEntries (tree : List GithubTreeItem) : List GithubTreeItem :=
  ((tree.filter (fun item => decide (item.type = GithubItemType.blob))).filter
    (fun item => !(IGNORED_PATHS.any (fun ig => strIncludes item.path ig)))).take
    30

/-- JavaScript `s.split(sep)` for a single-character separator, on
character lists: `"" → [""]`, separators between (possibly empty)
segments. -/
def splitOnChar (sep : Char) : List Char → List (List Char)
  | [] => [[]]
  | c :: cs =>
    if c == sep then [] :: splitOnChar sep cs
    else
      match splitOnChar sep cs with
      | [] => [[c]]
      | h :: t => (c :: h) :: t

/-- JavaScript `s.split(sep).pop()`: the last segment (split always
returns a non-empty array, so `pop` never yields `undefined`). -/
def jsSplitLast (sep : Char) (s : String) : String :=
  String.mk ((splitOnChar sep s.toList).getLastD [])

/-- `item.path.split('.').pop() || 'text'` (computed per entry before
its fetch): the last dot-separated segment, or `"text"` when that
segment is empty. -/
def jsExtension (path : String) : String :=
  if jsSplitLast '.' path = "" then "text" else jsSplitLast '.' path

/-- `item.path.split('/').pop() || item.path`. -/
def jsFileName (path : String) : String :=
  if jsSplitLast '/' path = "" then path else jsSplitLast '/' path

/-- Step 5: the `FileData` pushed for a successfully fetched entry. -/
def assembleRecord (item : GithubTreeItem) (content : String) : FileData :=
  { id := item.sha, name := jsFileName item.path, path := item.path,
    content := content, language := jsExtension item.path }

/-- The dual-path content fetch for one entry.  `rawResult item` is
`some body` when the raw endpoint answered ok (the body may be empty);
`blobResult item` is `some text` when the fallback blob request
succeeded and decoded (`none` collapses request failure and decode
failure — the source catches a decode throw and skips the entry, which
is observably the same as an empty content).  The `content` variable
starts as `''` and stays `''` when both paths fail. -/
def fetchContent (rawResult blobResult : GithubTreeItem → Option String)
    (item : GithubTreeItem) : String :=
  match rawResult item with
  | some body => body
  | none =>
    match blobResult item with
    | some decoded => decoded
    | none => ""

/-- `if (content) fetchedFiles.push({...})` for one entry: the record
the entry contributes, or `none` when the content is empty. -/
def recordOf (rawResult blobResult : GithubTreeItem → Option String)
    (item : GithubTreeItem) : Option FileData :=
  if fetchContent rawResult blobResult item = "" then none
  else some (assembleRecord item (fetchContent rawResult blobResult item))

/-- The `Promise.all` fetch phase: every per-entry closure runs, and a
successful one pushes its record onto `fetchedFiles` at the moment its
fetch completes, so the array is built by folding over the entries in
completion order. -/
def collectFetched (rawResult blobResult : GithubTreeItem → Option String)
    (completionOrder : List GithubTreeItem) : List FileData :=
  completionOrder.foldl (fun acc item =>
    match recordOf rawResult blobResult item with
    | some fd => acc ++ [fd]
    | none => acc) []

/-- The abstracted network environment of one `fetchGithubRepo` run. -/
structure GithubEnv where
  repoOk : Bool
  defaultBranch : String
  treeOk : Bool
  tree : List GithubTreeItem
  rawResult : GithubTreeItem → Option String
  blobResult : GithubTreeItem → Option String

/-- `fetchGithubRepo` with the thrown messages as the error values and
the completion order of the concurrent fetches explicit. -/
def fetchGithubRepo (env : GithubEnv)
    (completionOrder : List GithubTreeItem) : Except String (List FileData) :=
  if !env.repoOk then .error "Repository not found or private"
  else if !env.treeOk then .error "Failed to fetch repository tree"
  else if (selectEntries env.tree).length = 0 then
    .error "No readable source files found in repository."
  else .ok (collectFetched env.rawResult env.blobResult completionOrder)

/-- The entry selection exactly as the specification words it: the
blob-type entries whose path contains none of the denylist substrings,
in tree order, truncated to the first 30. -/
def specSurvivors (tree : List GithubTreeItem) : List GithubTreeItem :=
  (tree.filter (fun item =>
    decide (item.type = GithubItemType.blob) &&
      !(IGNORED_PATHS.any (fun ig => strIncludes item.path ig)))).take 30

theorem selectEntries_eq_spec (tree : List GithubTreeItem) :
    selectEntries tree = specSurvivors tree := by
  unfold selectEntries specSurvivors
  rw [List.filter_filter]
  have hcomm : ∀ a : GithubTreeItem,
      ((!(IGNORED_PATHS.any fun ig => strIncludes a.path ig)) &&
        decide (a.type = GithubItemType.blob)) =
      (decide (a.type = GithubItemType.blob) &&
        !(IGNORED_PATHS.any fun ig => strIncludes a.path ig)) :=
    fun a => Bool.and_comm _ _
  rw [funext hcomm]

def entryNodeModules : GithubTreeItem :=
  { path := "node_modules/a.js", mode := "100644",
    type := GithubItemType.blob, sha := "s1", size := none, url := "u1" }

def entrySrc : GithubTreeItem :=
  { path := "src/b.js", mode := "100644",
    type := GithubItemType.blob, sha := "s2", size := none, url := "u2" }

def entryGitHead : GithubTreeItem :=
  { path := ".git/HEAD", mode := "100644",
    type := GithubItemType.blob, sha := "s3", size := none, url := "u3" }

def entryDistBundle : GithubTreeItem :=
  { path := "dist/bundle.js", mode := "100644",
    type := GithubItemType.blob, sha := "s4", size := none, url := "u4" }

def treeFour : List GithubTreeItem :=
  [entryNodeModules, entrySrc, entryGitHead, entryDistBundle]

def mkBlobEntry (n : Nat) : GithubTreeItem :=
  { path := "f" ++ toString n ++ ".js", mode := "100644",
    type := GithubItemType.blob, sha := toString n, size := none, url := "" }

/-- A tree of 45 blob entries, none of which hits the denylist. -/
def tree45 : List GithubTreeItem := (List.range 45).map mkBlobEntry

/-- Claim C4: the set of entries selected for fetching equals the
blob-type entries whose path contains no denylist substring, in tree
order, truncated to the first 30; on a tree with 45 surviving entries
exactly the first 30 are selected, and on the four-path tree
`{node_modules/a.js, src/b.js, .git/HEAD, dist/bundle.js}` the
surviving set is exactly `{src/b.js}`. -/
theorem ingestion_filter_spec :
    (∀ tree, selectEntries tree = specSurvivors tree) ∧
    (∀ tree, (selectEntries tree).length ≤ 30) ∧
    tree45.length = 45 ∧
    ((tree45.filter
        (fun item => decide (item.type = GithubItemType.blob))).filter
      (fun item =>
        !(IGNORED_PATHS.any (fun ig => strIncludes item.path ig)))).length
      = 45 ∧
    selectEntries tree45 = tree45.take 30 ∧
    (selectEntries tree45).length = 30 ∧
    selectEntries treeFour = [entrySrc] := by
  refine ⟨fun tree => selectEntries_eq_spec tree, fun tree => ?_,
    by decide, by decide, by decide, by decide, by decide⟩
  unfold selectEntries
  rw [List.length_take]
  exact Nat.min_le_left _ _

theorem fetchGithubRepo_repoFail (env : GithubEnv)
    (order : List GithubTreeItem) (h : env.repoOk = false) :
    fetchGithubRepo env order = .error "Repository not found or private" := by
  unfold fetchGithubRepo
  rw [h]
  rfl

theorem fetchGithubRepo_treeFail (env : GithubEnv)
    (order : List GithubTreeItem) (h1 : env.repoOk = true)
    (h2 : env.treeOk = false) :
    fetchGithubRepo env order = .error "Failed to fetch repository tree" := by
  unfold fetchGithubRepo
  rw [h1, h2]
  rfl

theorem fetchGithubRepo_noFiles (env : GithubEnv)
    (order : List GithubTreeItem) (h1 : env.repoOk = true)
    (h2 : env.treeOk = true) (h3 : selectEntries env.tree = []) :
    fetchGithubRepo env order =
      .error "No readable source files found in repository." := by
  unfold fetchGithubRepo
  rw [h1, h2, h3]
  rfl

theorem fetchGithubRepo_ok (env : GithubEnv)
    (order : List GithubTreeItem) (h1 : env.repoOk = true)
    (h2 : env.treeOk = true) (h3 : selectEntries env.tree ≠ []) :
    fetchGithubRepo env order =
      .ok (collectFetched env.rawResult env.blobResult order) := by
  unfold fetchGithubRepo
  rw [h1, h2]
  have hlen : ¬ (selectEntries env.tree).length = 0 := by
    intro hc
    exact h3 (List.length_eq_zero.mp hc)
  rw [if_neg hlen]
  rfl

/-- Claim C9: the pipeline fails with the repository-not-found message
exactly when the metadata lookup is not ok, with the tree-fetch message
exactly when the metadata lookup is ok but the tree fetch is not, and
with the no-readable-files message exactly when both are ok but zero
entries survive filtering; it returns a record list (and only then)
when all three checks pass, so every failure happens before any
`FileData` is produced. -/
theorem ingestion_error_taxonomy (env : GithubEnv)
    (order : List GithubTreeItem) :
    (fetchGithubRepo env order = .error "Repository not found or private" ↔
      env.repoOk = false) ∧
    (fetchGithubRepo env order = .error "Failed to fetch repository tree" ↔
      env.repoOk = true ∧ env.treeOk = false) ∧
    (fetchGithubRepo env order =
        .error "No readable source files found in repository." ↔
      env.repoOk = true ∧ env.treeOk = true ∧ selectEntries env.tree = []) ∧
    ((∃ l, fetchGithubRepo env order = .ok l) ↔
      env.repoOk = true ∧ env.treeOk = true ∧ selectEntries env.tree ≠ []) := by
  cases hr : env.repoOk with
  | false =>
    rw [fetchGithubRepo_repoFail env order hr]
    refine ⟨by simp, by simp, by simp, by simp⟩
  | true =>
    cases ht : env.treeOk with
    | false =>
      rw [fetchGithubRepo_treeFail env order hr ht]
      refine ⟨by simp, by simp, by simp, by simp⟩
    | true =>
      by_cases hn : selectEntries env.tree = []
      · rw [fetchGithubRepo_noFiles env order hr ht hn]
        refine ⟨by simp, by simp, by simp [hn], by simp [hn]⟩
      · rw [fetchGithubRepo_ok env order hr ht hn]
        refine ⟨by simp, by simp, by simp [hn], by simp [hn]⟩

theorem recordOf_eq_some {raw blob : GithubTreeItem → Option String}
    {item : GithubTreeItem} {fd : FileData}
    (h : recordOf raw blob item = some fd) :
    fetchContent raw blob item ≠ "" ∧
    fd = assembleRecord item (fetchContent raw blob item) := by
  unfold recordOf at h
  split at h
  · exact absurd h (by simp)
  · exact ⟨by assumption, (Option.some.inj h).symm⟩

theorem collectFetched_eq_filterMap (raw blob : GithubTreeItem → Option String)
    (order : List GithubTreeItem) :
    collectFetched raw blob order = order.filterMap (recordOf raw blob) := by
  suffices h : ∀ acc : List FileData,
      order.foldl (fun acc item =>
        match recordOf raw blob item with
        | some fd => acc ++ [fd]
        | none => acc) acc = acc ++ order.filterMap (recordOf raw blob) by
    simpa using h []
  induction order with
  | nil => intro acc; simp
  | cons a l ih =>
    intro acc
    cases hrec : recordOf raw blob a with
    | none =>
      simp only [List.foldl_cons, List.filterMap_cons, hrec]
      exact ih acc
    | some fd =>
      simp only [List.foldl_cons, List.filterMap_cons, hrec]
      rw [ih (acc ++ [fd])]
      simp [List.append_assoc]

theorem filterMap_recordOf_path_sublist
    (raw blob : GithubTreeItem → Option String)
    (order : List GithubTreeItem) :
    List.Sublist ((order.filterMap (recordOf raw blob)).map FileData.path)
      (order.map GithubTreeItem.path) := by
  induction order with
  | nil => simp
  | cons a l ih =>
    cases hrec : recordOf raw blob a with
    | none =>
      simp only [List.filterMap_cons, hrec, List.map_cons]
      exact ih.cons _
    | some fd =>
      have hpath : fd.path = a.path := by
        rw [(recordOf_eq_some hrec).2]
        rfl
      simp only [List.filterMap_cons, hrec, List.map_cons, hpath]
      exact ih.cons₂ _

deriving instance DecidableEq for Except

/-- A second surviving entry, for completion-order examples. -/
def entryLib : GithubTreeItem :=
  { path := "lib/c.js", mode := "100644",
    type := GithubItemType.blob, sha := "s5", size := none, url := "u5" }

def treePair : List GithubTreeItem := [entrySrc, entryLib]

/-- Raw endpoint returning the entry's sha as its body. -/
def rawSha : GithubTreeItem → Option String := fun item => some item.sha

/-- A blob endpoint that always fails. -/
def noBlob : GithubTreeItem → Option String := fun _ => none

def envPair : GithubEnv :=
  { repoOk := true, defaultBranch := "main", treeOk := true,
    tree := treePair, rawResult := rawSha, blobResult := noBlob }

/-- Claim C5 counterexample: with two surviving entries
`[src/b.js, lib/c.js]` (tree order) and the fetch of `lib/c.js`
completing first, the pipeline returns the records in completion order
`[lib/c.js, src/b.js]`, not in the filtered (tree) order. -/
theorem ingestion_result_order_counterexample :
    List.Perm [entryLib, entrySrc] (selectEntries treePair) ∧
    (collectFetched rawSha noBlob [entryLib, entrySrc]).map FileData.path =
      ["lib/c.js", "src/b.js"] ∧
    ((selectEntries treePair).filterMap (recordOf rawSha noBlob)).map
      FileData.path = ["src/b.js", "lib/c.js"] ∧
    collectFetched rawSha noBlob [entryLib, entrySrc] ≠
      (selectEntries treePair).filterMap (recordOf rawSha noBlob) ∧
    fetchGithubRepo envPair [entryLib, entrySrc] =
      .ok (collectFetched rawSha noBlob [entryLib, entrySrc]) := by
  decide

/-- Claim C5 (amended): for every completion order of the concurrent
per-file fetches, the final record list is the successful records in
*completion order* (each record is pushed when its fetch completes);
the paths of the result therefore follow the completion order, and the
result coincides with the filtered (tree) order exactly when the
fetches complete in that order. -/
theorem ingestion_result_order (raw blob : GithubTreeItem → Option String)
    (order : List GithubTreeItem) :
    collectFetched raw blob order = order.filterMap (recordOf raw blob) ∧
    List.Sublist ((collectFetched raw blob order).map FileData.path)
      (order.map GithubTreeItem.path) ∧
    (∀ tree, order = selectEntries tree →
      collectFetched raw blob order =
        (selectEntries tree).filterMap (recordOf raw blob)) := by
  refine ⟨collectFetched_eq_filterMap raw blob order, ?_, fun tree h => ?_⟩
  · rw [collectFetched_eq_filterMap]
    exact filterMap_recordOf_path_sublist raw blob order
  · rw [h, collectFetched_eq_filterMap]

/-- Witness for `ingestion_result_order` with the fetches completing in
tree order. -/
theorem ingestion_result_order_witness :
    selectEntries treePair = selectEntries treePair ∧
    collectFetched rawSha noBlob (selectEntries treePair) =
      (selectEntries treePair).filterMap (recordOf rawSha noBlob) :=
  ⟨rfl, (ingestion_result_order rawSha noBlob
    (selectEntries treePair)).2.2 treePair rfl⟩

/-- A blob entry whose path has no extension. -/
def entryReadmeNoExt : GithubTreeItem :=
  { path := "README", mode := "100644",
    type := GithubItemType.blob, sha := "shaR", size := none, url := "uR" }

def rawHi : GithubTreeItem → Option String := fun _ => some "# Hi"

def envReadmeNoExt : GithubEnv :=
  { repoOk := true, defaultBranch := "main", treeOk := true,
    tree := [entryReadmeNoExt], rawResult := rawHi, blobResult := noBlob }

/-- Claim C6 counterexample: for the extensionless path `"README"`,
`path.split('.').pop()` is the whole path `"README"` (non-empty, so the
`|| 'text'` fallback never fires) and the assembled record — also
through the full pipeline — carries language `"README"`, not `"text"`. -/
theorem filerecord_fields_counterexample :
    jsExtension "README" = "README" ∧
    jsExtension "README" ≠ "text" ∧
    (assembleRecord entryReadmeNoExt "# Hi").language = "README" ∧
    fetchGithubRepo envReadmeNoExt [entryReadmeNoExt] =
      .ok [{ id := "shaR", name := "README", path := "README",
             content := "# Hi", language := "README" }] := by
  decide

def entryReadme : GithubTreeItem :=
  { path := "README.md", mode := "100644",
    type := GithubItemType.blob, sha := "shaM", size := none, url := "uM" }

def rawReadme : GithubTreeItem → Option String := fun item =>
  if item.path = "README.md" then some "# Hello" else none

def envReadme : GithubEnv :=
  { repoOk := true, defaultBranch := "main", treeOk := true,
    tree := [entryReadme], rawResult := rawReadme, blobResult := noBlob }

def readmeRecord : FileData :=
  { id := "shaM", name := "README.md", path := "README.md",
    content := "# Hello", language := "md" }

/-- Claim C6 (amended): every successfully fetched entry's record has
id = the entry's sha, name = the last slash-separated path segment (the
full path when that segment is empty), path = the full path, content =
the fetched content, and language = the last dot-separated segment of
the path — the whole path for a dotless path, and `"text"` only when
that segment is empty; the `README.md` end-to-end run yields the single
record `{name: README.md, path: README.md, content: "# Hello",
language: "md"}`. -/
theorem filerecord_fields (raw blob : GithubTreeItem → Option String)
    (item : GithubTreeItem) (fd : FileData)
    (h : recordOf raw blob item = some fd) :
    fd.id = item.sha ∧
    fd.name = jsFileName item.path ∧
    fd.path = item.path ∧
    fd.content = fetchContent raw blob item ∧
    fd.language = jsExtension item.path ∧
    (jsSplitLast '.' item.path = "" → fd.language = "text") ∧
    (jsSplitLast '.' item.path ≠ "" →
      fd.language = jsSplitLast '.' item.path) ∧
    fetchGithubRepo envReadme [entryReadme] = .ok [readmeRecord] := by
  obtain ⟨-, hfd⟩ := recordOf_eq_some h
  subst hfd
  refine ⟨rfl, rfl, rfl, rfl, rfl, fun he => ?_, fun hne => ?_, by decide⟩
  · show jsExtension item.path = "text"
    unfold jsExtension
    rw [if_pos he]
  · show jsExtension item.path = jsSplitLast '.' item.path
    unfold jsExtension
    rw [if_neg hne]

/-- Witness for `filerecord_fields` on the `README.md` entry. -/
theorem filerecord_fields_witness :
    recordOf rawReadme noBlob entryReadme = some readmeRecord ∧
    readmeRecord.id = entryReadme.sha ∧
    readmeRecord.name = jsFileName entryReadme.path ∧
    readmeRecord.language = jsExtension entryReadme.path :=
  ⟨by decide,
   (filerecord_fields rawReadme noBlob entryReadme readmeRecord
     (by decide)).1,
   (filerecord_fields rawReadme noBlob entryReadme readmeRecord
     (by decide)).2.1,
   (filerecord_fields rawReadme noBlob entryReadme readmeRecord
     (by decide)).2.2.2.2.1⟩

/-- Claim C10: every record the fetch phase produces has non-empty
content; an entry whose raw fetch succeeds with an empty body
contributes no record — exactly as if the fetch had failed — and the
blob fallback is not consulted (the outcome is the same for every
fallback). -/
theorem nonempty_content_invariant (raw blob : GithubTreeItem → Option String)
    (order : List GithubTreeItem) (item : GithubTreeItem)
    (h : raw item = some "") :
    (∀ fd ∈ collectFetched raw blob order, fd.content ≠ "") ∧
    (∀ blob₂, fetchContent raw blob₂ item = "") ∧
    (∀ blob₂, recordOf raw blob₂ item = none) := by
  have hfc : ∀ blob₂ : GithubTreeItem → Option String,
      fetchContent raw blob₂ item = "" := by
    intro blob₂
    unfold fetchContent
    rw [h]
  refine ⟨fun fd hfd => ?_, hfc, fun blob₂ => ?_⟩
  · rw [collectFetched_eq_filterMap] at hfd
    obtain ⟨it, hit, hrec⟩ := List.mem_filterMap.mp hfd
    obtain ⟨hne, hfd2⟩ := recordOf_eq_some hrec
    subst hfd2
    exact hne
  · unfold recordOf
    rw [if_pos (hfc blob₂)]

/-- Witness for `nonempty_content_invariant`: the raw endpoint answers
ok with an empty body while the fallback would return non-empty text;
the entry is still dropped. -/
theorem nonempty_content_invariant_witness :
    (fun _ : GithubTreeItem => some "") entrySrc = some "" ∧
    (∀ fd ∈ collectFetched (fun _ => some "")
        (fun _ => some "fallback text") [entrySrc], fd.content ≠ "") ∧
    recordOf (fun _ => some "") (fun _ => some "fallback text") entrySrc =
      none :=
  ⟨rfl,
   (nonempty_content_invariant (fun _ => some "")
     (fun _ => some "fallback text") [entrySrc] entrySrc rfl).1,
   (nonempty_content_invariant (fun _ => some "")
     (fun _ => some "fallback text") [entrySrc] entrySrc rfl).2.2
     (fun _ => some "fallback text")⟩
